import Mathlib

/-!
# my_shell: the test execution engine of the run builtin

A shallow embedding of `test`, `lsh_run`, `lsh_execute` and `lsh_loop` from
`my_shell.c`.  The operating system (file system, pipes, scratch files, fork,
the child processes and the wait statuses they produce) is an explicit
environment `Env`; the engine is a pure function of the environment and the
argument vector that returns the outcome, the two counters and the trace of
the calls it made.
-/

set_option autoImplicit false
set_option maxRecDepth 100000

namespace MyShell

/-! ## C strings -/

/-- The NUL byte that terminates a C string. -/
def NUL : Char := Char.ofNat 0

/-- Capacity of the capture buffer: `#define BUFFER_SIZE 1024`. -/
def BUFFER_SIZE : Nat := 1024

/-- Capacity of the buffer for the executable name: `#define STRING_SIZE 50`. -/
def STRING_SIZE : Nat := 50

/-- The string a `char *` denotes when the array behind it is known to hold a
terminator (a `getline` result, whose bytes are followed by a NUL): the bytes
before the first NUL. -/
def cstr (s : List Char) : List Char :=
  s.takeWhile (fun c => c != NUL)

/-- The string read from the start of a fixed array that carries no terminator
of its own: the bytes before the first NUL, and nothing (`none`) when the array
holds no NUL, because the read then runs past the end of the array. -/
def cstrBuf (buffer : List Char) : Option (List Char) :=
  if NUL ∈ buffer then some (cstr buffer) else none

/-- The C function `strrchr(s, c)`: the tail of `s` that starts at the last
occurrence of `c`, or `none` (NULL) when `c` does not occur. -/
def strrchr : List Char → Char → Option (List Char)
  | [], _ => none
  | x :: xs, c =>
    match strrchr xs c with
    | some r => some r
    | none => if x = c then some (x :: xs) else none

/-- The first call `strtok(s, delim)`: leading delimiters are skipped; when
nothing is left the result is `none` (NULL), otherwise the token runs up to the
next delimiter. -/
def strtok (s : List Char) (delim : List Char) : Option (List Char) :=
  let s1 := s.dropWhile (fun c => decide (c ∈ delim))
  if s1 = [] then none else some (s1.takeWhile (fun c => !decide (c ∈ delim)))

/-- The C function `strcat(dest, src)` into an array of `capacity` bytes that
holds the string `dest`: the concatenation, or `none` when it does not fit
together with its terminator (the write runs past the array). -/
def strcat (dest src : List Char) (capacity : Nat) : Option (List Char) :=
  if dest.length + src.length + 1 ≤ capacity then some (dest ++ src) else none

/-! ## Files and lines -/

/-- The lines of a file as successive `getline` calls deliver them: each line
keeps its terminating newline, and a last line without newline is delivered as
it is. -/
def lines : List Char → List (List Char)
  | [] => []
  | c :: cs =>
    if c = '\n' then [c] :: lines cs
    else
      match lines cs with
      | [] => [[c]]
      | l :: ls => (c :: l) :: ls

/-- What one `getline(&lineptr, &n, stream)` call leaves behind. -/
structure Getline where
  /-- The return value: the length of the line, or `-1` at end of file. -/
  ret : Int
  /-- The line buffer afterwards (`none`: never assigned). -/
  line : Option (List Char)
  /-- The lines that remain in the stream. -/
  stream : List (List Char)

/-- The call `getline(&lineptr, &n, stream)` on a stream given by its remaining
lines.  At end of file it returns `-1` and leaves the line buffer as it was. -/
def getline (lineptr : Option (List Char)) : List (List Char) → Getline
  | [] => ⟨-1, lineptr, []⟩
  | l :: rest => ⟨(l.length : Int), some l, rest⟩

/-! ## Processes -/

/-- The status word that `waitpid(pid, &status, WUNTRACED)` stores. -/
inductive WaitStatus where
  | exited (code : Nat)
  | signaled (sig : Nat)
  | stopped (sig : Nat)
  deriving DecidableEq, Repr

/-- The macro `WIFEXITED(status)`. -/
def WIFEXITED : WaitStatus → Bool
  | .exited _ => true
  | _ => false

/-- The macro `WIFSIGNALED(status)`. -/
def WIFSIGNALED : WaitStatus → Bool
  | .signaled _ => true
  | _ => false

/-- An argument vector (without its NULL terminator). -/
abbrev Argv := List (List Char)

/-- The calls of the engine that are visible from outside, in program order. -/
inductive Event where
  /-- A literal `printf`. -/
  | printf (msg : String)
  /-- A `perror` call with its message. -/
  | perror (msg : String)
  /-- The call `lsh_launch(argv)`. -/
  | launch (argv : Argv)
  /-- The call `fopen(path, "r")`. -/
  | fopen (path : List Char)
  /-- The call `pipe(fd)` and whether it succeeded. -/
  | pipe (ok : Bool)
  /-- The call `tmpfile()` and whether it succeeded. -/
  | tmpfile (ok : Bool)
  /-- The call `fputs(inLine, currInput)` with the bytes it writes. -/
  | fputs (s : List Char)
  /-- The call `fork()` with the value it returned in this process. -/
  | fork (pid : Int)
  /-- The child: `execvp(arguments[0], arguments)` with the bytes on its
  standard input (`none`: `arguments` was never assigned). -/
  | execvp (arguments : Option Argv) (stdin : List Char)
  /-- One `waitpid` call with the status it stored. -/
  | waitpid (status : WaitStatus)
  /-- One `read` call with the bytes it stored in the buffer. -/
  | read (bytes : List Char)
  /-- One call of `test`: its return value and the three strings it prints. -/
  | test (result : Int) (input expected actual : List Char)
  /-- The counters right after `total++`. -/
  | counted (passed total : Int)
  /-- The tally line `printf("%d/%d Tests Passed\n", passed, total)`. -/
  | tally (passed total : Int)
  /-- A call of `exit`. -/
  | exit (code : Int)
  deriving DecidableEq, Repr

/-- How an invocation of the engine ends. -/
inductive Outcome where
  /-- The function returned this value to its caller. -/
  | returned (status : Int)
  /-- The function called `exit(code)`: the whole process ended. -/
  | exited (code : Int)
  /-- This process is the forked child: it becomes the target program. -/
  | child
  /-- The child never reports a terminal status: `waitpid` waits for ever. -/
  | blocked
  /-- The C program left defined behaviour (NULL dereference, a read or write
  past the end of an array, an unassigned pointer). -/
  | undefined
  deriving DecidableEq, Repr

/-- The result of an invocation: outcome, final counters, trace. -/
structure Result where
  outcome : Outcome
  passed : Int
  total : Int
  trace : List Event
  deriving DecidableEq, Repr

/-- Put the events that happened earlier in front of a result. -/
def Result.after (evs : List Event) (r : Result) : Result :=
  { r with trace := evs ++ r.trace }

/-- The operating system as the engine meets it. Test cases are numbered from 0
in the order in which the case loop reaches them. -/
structure Env where
  /-- The file system: `fopen(path, "r")` gives the bytes of the file, or fails. -/
  fs : List Char → Option (List Char)
  /-- The bytes that the uninitialised `char buffer[BUFFER_SIZE]` happens to hold
  when `lsh_run` starts, by index. -/
  garbage : Nat → Char
  /-- Whether `pipe(fd)` succeeds for case `k`. -/
  pipe : Nat → Bool
  /-- Whether `tmpfile()` succeeds for case `k`. -/
  tmpfile : Nat → Bool
  /-- The value `fork()` returns in this process for case `k`. -/
  fork : Nat → Int
  /-- The child of case `k` run on an argument vector and standard input: the
  statuses that successive `waitpid` calls report, each with the bytes that have
  newly reached the pipe when the `read` after that report returns. -/
  child : Nat → Option Argv → List Char → List (WaitStatus × List Char)

/-- The variables of `lsh_run` that live across iterations of the case loop.
The two `int` counters are mathematical integers here: each step adds at most
one, so a counter stays below 2^31 for any corpus of fewer than 2^31 lines. -/
structure State where
  /-- The expected line: `char *testLine` (`none`: never assigned). -/
  testLine : Option (List Char)
  /-- The capture buffer: `char buffer[BUFFER_SIZE]`. -/
  buffer : List Char
  passed : Int
  total : Int
  deriving DecidableEq, Repr

/-! ## The functions of my_shell.c -/

/-- The function `test(buffer, testLine, input)`, lines 64-74: returns 1 when
`strcmp(buffer, testLine) == 0` and 0 otherwise, and prints the verdict.  The
result is the return value with the event of the call; it is `none` when one of
the two pointers does not denote a string. -/
def test (buffer : List Char) (testLine : Option (List Char)) (input : List Char) :
    Option (Int × Event) :=
  match cstrBuf buffer, testLine with
  | some actual, some expected =>
    if actual = cstr expected then
      some (1, Event.test 1 (cstr input) (cstr expected) actual)
    else
      some (0, Event.test 0 (cstr input) (cstr expected) actual)
  | _, _ => none

/-- The function `lsh_launch(args)`, lines 267-290: forks, runs the program,
waits for it, and always returns 1. -/
def lsh_launch (_args : Argv) : Int := 1

/-- What lines 96-117 of `lsh_run` leave behind. -/
inductive Resolution where
  /-- Control reaches line 118 with this `arguments` array (`none`: never
  assigned) after these calls. -/
  | run (arguments : Option Argv) (trace : List Event)
  /-- The final `else`: "File type not supported" and `return 0`. -/
  | unsupported
  /-- Undefined behaviour (`strcat` past the end of `progRun`, or a NULL name). -/
  | undefined
  deriving DecidableEq, Repr

/-- Lines 96-117 of `lsh_run`: choose the toolchain from the suffix at the last
dot and build the argument vectors from the `strtok` token. -/
def resolve (path : List Char) : Resolution :=
  match strrchr path '.' with
  | none => .run none []
  | some fileExt =>
    if fileExt = ".c".toList then
      match strtok path ['.'] with
      | none => .undefined
      | some name =>
        match strcat "./".toList name STRING_SIZE with
        | none => .undefined
        | some progRun =>
          .run (some [progRun]) [Event.launch ["gcc".toList, "-o".toList, name, path]]
    else if fileExt = ".py".toList then
      .run (some ("python3".toList :: (strtok path ['.']).toList)) []
    else
      .unsupported

/-- The result of the parent branch of one case. -/
inductive Flow where
  /-- The do-while loop ended; the case loop goes on with this state. -/
  | next (st : State) (trace : List Event)
  /-- The run ended inside the do-while loop. -/
  | halt (o : Outcome) (st : State) (trace : List Event)
  deriving DecidableEq, Repr

/-- Put earlier events in front of a flow. -/
def Flow.after (evs : List Event) : Flow → Flow
  | .next st tr => .next st (evs ++ tr)
  | .halt o st tr => .halt o st (evs ++ tr)

/-- The call `read(fd[0], buffer, sizeof(buffer))` on a pipe that holds `avail`:
the first `BUFFER_SIZE` bytes at most overwrite the start of the buffer, the
rest of the buffer keeps its bytes. -/
def readInto (avail buffer : List Char) : List Char :=
  avail.take BUFFER_SIZE ++ buffer.drop (min BUFFER_SIZE avail.length)

/-- The do-while loop of lines 161-168, driven by the reports of the child.
Each round waits, reads once, compares, counts and clears the buffer; the loop
goes round again while the status is neither exited nor signaled. -/
def doWhile (testLine : Option (List Char)) (inLine : List Char) :
    List (WaitStatus × List Char) → List Char → State → Flow
  | [], _, st => .halt .blocked st []
  | (status, written) :: reports, inPipe, st =>
    let avail := inPipe ++ written
    let buffer := readInto avail st.buffer
    let here := [Event.waitpid status, Event.read (avail.take BUFFER_SIZE)]
    match test buffer testLine inLine with
    | none => .halt .undefined { st with buffer := buffer } here
    | some (r, ev) =>
      let st1 : State :=
        { testLine := st.testLine
          buffer := List.replicate BUFFER_SIZE NUL
          passed := st.passed + r
          total := st.total + 1 }
      let evs := here ++ [ev, Event.counted st1.passed st1.total]
      if !WIFEXITED status && !WIFSIGNALED status then
        (doWhile testLine inLine reports (avail.drop BUFFER_SIZE) st1).after evs
      else
        .next st1 evs

/-- Lines 171-173: the tally line, then `return 1`. -/
def finish (st : State) : Result :=
  ⟨.returned 1, st.passed, st.total, [Event.tally st.passed st.total]⟩

/-- The case loop of lines 125-170 on the remaining lines of the two corpus
files.  The loop goes on while `getline` on the input file is not `-1` and
`getline` on the expected file is not `0`. -/
def whileLoop (env : Env) (arguments : Option Argv) :
    Nat → List (List Char) → List (List Char) → State → Result
  | _, [], _, st => finish st
  | k, inLine :: input, expected, st =>
    let g := getline st.testLine expected
    if g.ret ≠ 0 then
      let st0 : State := { st with testLine := g.line }
      if env.pipe k = false then
        ⟨.exited 1, st.passed, st.total,
          [Event.pipe false, Event.perror "Pipe Failed", Event.exit 1]⟩
      else if env.tmpfile k = false then
        ⟨.exited 1, st.passed, st.total,
          [Event.pipe true, Event.tmpfile false, Event.perror "Error opening file",
            Event.exit 1]⟩
      else
        let pid := env.fork k
        let pre := [Event.pipe true, Event.tmpfile true, Event.fputs (cstr inLine),
          Event.fork pid]
        if pid = 0 then
          ⟨.child, st.passed, st.total, pre ++ [Event.execvp arguments (cstr inLine)]⟩
        else if pid < 0 then
          (whileLoop env arguments (k + 1) input g.stream st0).after
            (pre ++ [Event.perror "Fork Error"])
        else
          match doWhile g.line inLine (env.child k arguments (cstr inLine)) [] st0 with
          | .next st1 evs =>
            (whileLoop env arguments (k + 1) input g.stream st1).after
              (pre ++ Event.execvp arguments (cstr inLine) :: evs)
          | .halt o st1 evs =>
            ⟨o, st1.passed, st1.total, pre ++ Event.execvp arguments (cstr inLine) :: evs⟩
    else
      finish st

/-- The state at line 118: counters at zero, `testLine` unassigned, the buffer
holding whatever the stack held. -/
def initialState (env : Env) : State :=
  { testLine := none
    buffer := (List.range BUFFER_SIZE).map env.garbage
    passed := 0
    total := 0 }

/-- Lines 118-174 of `lsh_run`: open both corpus files and run the case loop. -/
def runCorpus (env : Env) (arguments : Option Argv) (inputPath expectedPath : List Char) :
    Result :=
  match env.fs inputPath, env.fs expectedPath with
  | some input, some expected =>
    (whileLoop env arguments 0 (lines input) (lines expected) (initialState env)).after
      [Event.fopen inputPath, Event.fopen expectedPath]
  | _, _ =>
    ⟨.returned 0, 0, 0,
      [Event.fopen inputPath, Event.fopen expectedPath, Event.perror "File opening error\n"]⟩

/-- The function `lsh_run(args)`, lines 76-174.  `args[1]` is the target path,
`args[2]` the input corpus, `args[3]` the expected corpus; a missing argument is
a NULL (or unassigned) pointer handed to a library function. -/
def lsh_run (env : Env) (args : Argv) : Result :=
  match args[1]? with
  | none => ⟨.undefined, 0, 0, []⟩
  | some path =>
    match resolve path with
    | .unsupported => ⟨.returned 0, 0, 0, [Event.printf "File type not supported\n"]⟩
    | .undefined => ⟨.undefined, 0, 0, []⟩
    | .run arguments evs =>
      match args[2]?, args[3]? with
      | some inputPath, some expectedPath =>
        (runCorpus env arguments inputPath expectedPath).after evs
      | _, _ => ⟨.undefined, 0, 0, evs⟩

/-- The function `lsh_cd`: "Always returns 1, to continue executing." -/
def lsh_cd (_args : Argv) : Int := 1

/-- The function `lsh_help`: "Always returns 1, to continue executing." -/
def lsh_help (_args : Argv) : Int := 1

/-- The function `lsh_exit`: "Always returns 0, to terminate execution." -/
def lsh_exit (_args : Argv) : Int := 0

/-- The function `lsh_show`: every path through it, the error paths included,
ends in `return 1`. -/
def lsh_show (_args : Argv) : Int := 1

/-- The table `builtin_str`. -/
def builtin_str : List String := ["cd", "help", "exit", "show", "run"]

/-- A builtin that only returns a status. -/
def returns (status : Int) : Result := ⟨.returned status, 0, 0, []⟩

/-- The table `builtin_func`, by index into `builtin_str`. -/
def builtin_func (env : Env) (i : Nat) (args : Argv) : Result :=
  match i with
  | 0 => returns (lsh_cd args)
  | 1 => returns (lsh_help args)
  | 2 => returns (lsh_exit args)
  | 3 => returns (lsh_show args)
  | _ => lsh_run env args

/-- The function `lsh_execute(args)`, lines 297-313: "1 if the shell should
continue running, 0 if it should terminate". -/
def lsh_execute (env : Env) (args : Argv) : Result :=
  match args with
  | [] => returns 1
  | cmd :: _ =>
    match builtin_str.indexOf? (String.mk cmd) with
    | some i => builtin_func env i args
    | none => returns (lsh_launch args)

/-- The function `lsh_loop`, lines 415-430, on the command lines that standard
input still holds, each already split into tokens: the results of the commands
that were executed, in order.  The loop goes on while the status is non-zero. -/
def lsh_loop (env : Env) : List Argv → List Result
  | [] => []
  | args :: rest =>
    let r := lsh_execute env args
    match r.outcome with
    | .returned status => if status ≠ 0 then r :: lsh_loop env rest else [r]
    | _ => [r]

/-! ## Observations on traces and the words of the specification -/

/-- The counter states a trace went through, in order. -/
def tallies : List Event → List (Int × Int)
  | [] => []
  | Event.counted p t :: tr => (p, t) :: tallies tr
  | _ :: tr => tallies tr

/-- The child executions in a trace, in order. -/
def execs : List Event → List Event
  | [] => []
  | Event.execvp a s :: tr => Event.execvp a s :: execs tr
  | _ :: tr => execs tr

/-- The specification's base name: "the portion before the first `.` in the
path". -/
def beforeFirstDot (path : List Char) : List Char :=
  path.takeWhile (fun c => c != '.')

/-- One counting step as the specification describes it: total grows by one,
passed by nought or one. -/
def CountStep (a b : Int × Int) : Prop :=
  b.2 = a.2 + 1 ∧ (b.1 = a.1 ∨ b.1 = a.1 + 1)

/-- The result of the unsupported-language abort. -/
def unsupportedResult : Result :=
  ⟨.returned 0, 0, 0, [Event.printf "File type not supported\n"]⟩

/-- The state a flow ends in. -/
def Flow.state : Flow → State
  | .next st _ => st
  | .halt _ st _ => st

/-- The events of a flow. -/
def Flow.trace : Flow → List Event
  | .next _ tr => tr
  | .halt _ _ tr => tr

/-- The counters go from `a` through the states `l` to `b`, one counting step
at a time. -/
def Walk (a : Int × Int) (l : List (Int × Int)) (b : Int × Int) : Prop :=
  List.Chain CountStep a l ∧ l.getLastD a = b

/-- A file system that holds the listed files and nothing else. -/
def fsOf (files : List (List Char × List Char)) : List Char → Option (List Char) :=
  fun p => files.lookup p

/-- An environment in which every system call succeeds, the capture buffer
starts zeroed, and every child runs `prog`, a function from standard input to
the reports of the child. -/
def envOf (files : List (List Char × List Char))
    (prog : List Char → List (WaitStatus × List Char)) : Env :=
  { fs := fsOf files
    garbage := fun _ => NUL
    pipe := fun _ => true
    tmpfile := fun _ => true
    fork := fun k => (k : Int) + 1
    child := fun _ _ stdin => prog stdin }

/-- The target that copies standard input to standard output and exits. -/
def echo (stdin : List Char) : List (WaitStatus × List Char) :=
  [(WaitStatus.exited 0, stdin)]

/-- The argument vector of `run <target> in exp`. -/
def runArgs (target : List Char) : Argv :=
  ["run".toList, target, "in".toList, "exp".toList]

/-- The two corpus files `in` and `exp` with the given contents. -/
def corpus (input expected : List Char) : List (List Char × List Char) :=
  [("in".toList, input), ("exp".toList, expected)]

/-- The state of a run that has not counted anything and whose buffer is clear. -/
def clearState : State :=
  ⟨none, List.replicate BUFFER_SIZE NUL, 0, 0⟩

/-- A target that stops itself once (SIGSTOP, 19) and, once continued, copies
standard input to standard output and exits.  The `read` after the stop report
blocks until those bytes arrive; the `read` after the exit report meets end of
file. -/
def stopThenEcho (stdin : List Char) : List (WaitStatus × List Char) :=
  [(WaitStatus.stopped 19, stdin), (WaitStatus.exited 0, [])]

/-- The environment `envOf files prog` with every `fork` failing. -/
def forkFailing (files : List (List Char × List Char))
    (prog : List Char → List (WaitStatus × List Char)) : Env :=
  { envOf files prog with fork := fun _ => -1 }

/-- The environment `envOf files prog` with every `pipe` failing. -/
def pipeFailing (files : List (List Char × List Char))
    (prog : List Char → List (WaitStatus × List Char)) : Env :=
  { envOf files prog with pipe := fun _ => false }

/-- The environment `envOf files prog` with eight stale bytes `xxxxxxxx` at the
start of the uninitialised capture buffer. -/
def staleBuffer (files : List (List Char × List Char))
    (prog : List Char → List (WaitStatus × List Char)) : Env :=
  { envOf files prog with garbage := fun i => if i < 8 then 'x' else NUL }

theorem strrchr_suffix (s : List Char) (c : Char) (r : List Char)
    (h : strrchr s c = some r) : ∃ pre, s = pre ++ r ∧ r.head? = some c := by
  induction s generalizing r with
  | nil => simp [strrchr] at h
  | cons x xs ih =>
    unfold strrchr at h
    split at h
    · rename_i r0 heq
      obtain ⟨pre, hp, hh⟩ := ih r0 heq
      simp only [Option.some.injEq] at h
      subst h
      exact ⟨x :: pre, by simp [hp], hh⟩
    · split at h
      · simp only [Option.some.injEq] at h
        subst h
        rename_i hx
        exact ⟨[], by simp, by simp [hx]⟩
      · simp at h

theorem strtok_dot (path : List Char) :
    strtok path ['.'] =
      if path.dropWhile (fun c => c == '.') = [] then none
      else some (beforeFirstDot (path.dropWhile (fun c => c == '.'))) := by
  have h1 : (fun c : Char => decide (c ∈ ['.'])) = (fun c => c == '.') := by
    funext c
    by_cases h : c = '.' <;> simp [h]
  have h2 : (fun c : Char => !decide (c ∈ ['.'])) = (fun c => c != '.') := by
    funext c
    by_cases h : c = '.' <;> simp [h]
  simp only [strtok, beforeFirstDot, h1, h2]

theorem dropWhile_dot_ne_nil (path ext : List Char) (x : Char) (hx : x ≠ '.')
    (hmem : x ∈ ext) (hext : strrchr path '.' = some ext) :
    path.dropWhile (fun c => c == '.') ≠ [] := by
  obtain ⟨pre, hp, _⟩ := strrchr_suffix path '.' ext hext
  intro h
  rw [List.dropWhile_eq_nil_iff] at h
  have := h x (by rw [hp]; exact List.mem_append_right _ hmem)
  simp at this
  exact hx this

theorem dropWhile_dot_of_head (path : List Char) (h : path.head? ≠ some '.') :
    path.dropWhile (fun c => c == '.') = path := by
  cases path with
  | nil => rfl
  | cons x xs =>
    simp only [List.head?_cons, ne_eq, Option.some.injEq] at h
    have hx : (x == '.') = false := by simp [h]
    simp [List.dropWhile, hx]

/-- C3. For every target path whose suffix from the last dot is neither `.c` nor
`.py`, `lsh_run` prints "File type not supported" and does nothing else: the
trace holds that one event (no compiler launch, no `fopen`, no `fork`, no tally
line) and both counters are zero. -/
theorem unsupported_suffix_runs_nothing (env : Env) (cmd path : List Char) (rest : Argv)
    (ext : List Char) (hext : strrchr path '.' = some ext)
    (hc : ext ≠ ".c".toList) (hpy : ext ≠ ".py".toList) :
    lsh_run env (cmd :: path :: rest) =
      ⟨.returned 0, 0, 0, [Event.printf "File type not supported\n"]⟩ := by
  have hres : resolve path = .unsupported := by
    unfold resolve
    rw [hext]
    simp only []
    rw [if_neg hc, if_neg hpy]
  simp only [lsh_run, List.getElem?_cons_succ, List.getElem?_cons_zero, hres]

/-- C3 at the path `notes.txt`. -/
theorem unsupported_suffix_runs_nothing_witness :
    lsh_run (envOf [] echo) ["run".toList, "notes.txt".toList, "in".toList, "exp".toList] =
      ⟨.returned 0, 0, 0, [Event.printf "File type not supported\n"]⟩ :=
  unsupported_suffix_runs_nothing (envOf [] echo) "run".toList "notes.txt".toList
    ["in".toList, "exp".toList] ".txt".toList (by decide) (by decide) (by decide)

/-- C8, as amended. For every target path whose suffix from the last dot is `.c`
or `.py`, the base name is the `strtok` token: the path with its leading dots
skipped, up to the next dot.  It is the portion before the first dot when the
path does not begin with a dot.  For `.c`, when `./` and the base fit the 50
bytes of `progRun`, the compiler vector is `gcc -o base path` and the invocation
vector is `./base`; for `.py` the invocation vector is `python3 base`. -/
theorem resolver_base_is_strtok_token (path ext : List Char)
    (hext : strrchr path '.' = some ext)
    (hsuf : ext = ".c".toList ∨ ext = ".py".toList) :
    ∃ base, strtok path ['.'] = some base ∧
      base = beforeFirstDot (path.dropWhile (fun c => c == '.')) ∧
      (path.head? ≠ some '.' → base = beforeFirstDot path) ∧
      (ext = ".c".toList → base.length + 3 ≤ STRING_SIZE →
        resolve path = .run (some ["./".toList ++ base])
          [Event.launch ["gcc".toList, "-o".toList, base, path]]) ∧
      (ext = ".py".toList →
        resolve path = .run (some ["python3".toList, base]) []) := by
  have hne : path.dropWhile (fun c => c == '.') ≠ [] := by
    rcases hsuf with h | h
    · exact dropWhile_dot_ne_nil path ext 'c' (by decide) (by rw [h]; decide) hext
    · exact dropWhile_dot_ne_nil path ext 'p' (by decide) (by rw [h]; decide) hext
  have htok : strtok path ['.'] =
      some (beforeFirstDot (path.dropWhile (fun c => c == '.'))) := by
    rw [strtok_dot, if_neg hne]
  refine ⟨_, htok, rfl, ?_, ?_, ?_⟩
  · intro hh
    rw [dropWhile_dot_of_head path hh]
  · intro hc hlen
    have hcat : strcat "./".toList (beforeFirstDot (path.dropWhile (fun c => c == '.')))
        STRING_SIZE = some ("./".toList ++
          beforeFirstDot (path.dropWhile (fun c => c == '.'))) := by
      unfold strcat
      rw [if_pos]
      have : "./".toList.length = 2 := by decide
      omega
    simp only [resolve, hext, hc, if_true, htok, hcat]
  · intro hpy
    have hne2 : ¬ (".py".toList = ".c".toList) := by decide
    simp only [resolve, hext, hpy, hne2, if_false, if_true, htok, Option.toList]

/-! ## Lemmas on the capture buffer -/

theorem tallies_append (a b : List Event) : tallies (a ++ b) = tallies a ++ tallies b := by
  induction a with
  | nil => rfl
  | cons e es ih => cases e <;> simp [tallies, ih]

theorem Walk.refl (a : Int × Int) : Walk a [] a :=
  ⟨List.Chain.nil, rfl⟩

theorem Walk.step {a b c : Int × Int} {l : List (Int × Int)} (h : CountStep a b)
    (w : Walk b l c) : Walk a (b :: l) c := by
  refine ⟨List.Chain.cons h w.1, ?_⟩
  have := w.2
  cases l with
  | nil => simpa [List.getLastD] using this
  | cons x xs => simpa [List.getLastD] using this

theorem Walk.append {a b c : Int × Int} {l₁ l₂ : List (Int × Int)} (w₁ : Walk a l₁ b)
    (w₂ : Walk b l₂ c) : Walk a (l₁ ++ l₂) c := by
  induction l₁ generalizing a with
  | nil =>
    have : a = b := by simpa [Walk, List.getLastD] using w₁.2
    subst this
    simpa using w₂
  | cons x xs ih =>
    obtain ⟨hc, hl⟩ := w₁
    rw [List.chain_cons] at hc
    have hx : Walk x xs b := by
      refine ⟨hc.2, ?_⟩
      cases xs with
      | nil => simpa [List.getLastD] using hl
      | cons y ys => simpa [List.getLastD] using hl
    exact Walk.step hc.1 (ih hx)

theorem test_result (buffer : List Char) (testLine : Option (List Char)) (input : List Char)
    (r : Int) (ev : Event) (h : test buffer testLine input = some (r, ev)) :
    (r = 0 ∨ r = 1) ∧ tallies [ev] = [] := by
  unfold test at h
  split at h
  · split at h
    · simp only [Option.some.injEq, Prod.mk.injEq] at h
      obtain ⟨h1, h2⟩ := h
      subst h1 h2
      exact ⟨Or.inr rfl, rfl⟩
    · simp only [Option.some.injEq, Prod.mk.injEq] at h
      obtain ⟨h1, h2⟩ := h
      subst h1 h2
      exact ⟨Or.inl rfl, rfl⟩
  · simp at h

theorem Flow.after_state (evs : List Event) (f : Flow) : (f.after evs).state = f.state := by
  cases f <;> rfl

theorem Flow.after_trace (evs : List Event) (f : Flow) :
    (f.after evs).trace = evs ++ f.trace := by
  cases f <;> rfl

theorem doWhile_walk (testLine : Option (List Char)) (inLine : List Char) :
    ∀ (reports : List (WaitStatus × List Char)) (inPipe : List Char) (st : State),
      Walk (st.passed, st.total)
        (tallies (doWhile testLine inLine reports inPipe st).trace)
        ((doWhile testLine inLine reports inPipe st).state.passed,
          (doWhile testLine inLine reports inPipe st).state.total) := by
  intro reports
  induction reports with
  | nil =>
    intro inPipe st
    simp only [doWhile, Flow.trace, Flow.state, tallies]
    exact Walk.refl _
  | cons rep reports ih =>
    intro inPipe st
    obtain ⟨status, written⟩ := rep
    rw [doWhile]
    simp only []
    cases ht : test (readInto (inPipe ++ written) st.buffer) testLine inLine with
    | none =>
      simp only [Flow.trace, Flow.state, tallies]
      exact Walk.refl _
    | some p =>
      obtain ⟨r, ev⟩ := p
      obtain ⟨hr, hev⟩ := test_result _ _ _ r ev ht
      have hstep : CountStep (st.passed, st.total) (st.passed + r, st.total + 1) := by
        refine ⟨rfl, ?_⟩
        rcases hr with h | h <;> simp [h]
      have htal : ∀ rest, tallies ([Event.waitpid status,
          Event.read (List.take BUFFER_SIZE (inPipe ++ written))] ++
          [ev, Event.counted (st.passed + r) (st.total + 1)] ++ rest) =
          (st.passed + r, st.total + 1) :: tallies rest := by
        intro rest
        have h1 : tallies [ev, Event.counted (st.passed + r) (st.total + 1)] =
            [(st.passed + r, st.total + 1)] := by
          have := tallies_append [ev] [Event.counted (st.passed + r) (st.total + 1)]
          rw [hev] at this
          simpa [tallies] using this
        rw [tallies_append, tallies_append, h1]
        simp [tallies]
      simp only []
      split
      · rw [Flow.after_trace, Flow.after_state, htal]
        exact Walk.step hstep (ih (List.drop BUFFER_SIZE (inPipe ++ written))
          ⟨st.testLine, List.replicate BUFFER_SIZE NUL, st.passed + r, st.total + 1⟩)
      · simp only [Flow.trace, Flow.state]
        have := htal []
        rw [List.append_nil] at this
        rw [this]
        exact Walk.step hstep (Walk.refl _)

theorem whileLoop_walk (env : Env) (arguments : Option Argv) :
    ∀ (input expected : List (List Char)) (k : Nat) (st : State),
      Walk (st.passed, st.total)
        (tallies (whileLoop env arguments k input expected st).trace)
        ((whileLoop env arguments k input expected st).passed,
          (whileLoop env arguments k input expected st).total) := by
  intro input
  induction input with
  | nil =>
    intro expected k st
    simp only [whileLoop, finish, tallies]
    exact Walk.refl _
  | cons inLine input ih =>
    intro expected k st
    rw [whileLoop]
    simp only []
    split
    · split
      · simp only [tallies]
        exact Walk.refl _
      · split
        · simp only [tallies]
          exact Walk.refl _
        · split
          · simp only [tallies_append, tallies, List.append_nil]
            exact Walk.refl _
          · split
            · simp only [Result.after]
              rw [tallies_append]
              exact ih (getline st.testLine expected).stream (k + 1)
                ⟨(getline st.testLine expected).line, st.buffer, st.passed, st.total⟩
            · have hw := doWhile_walk (getline st.testLine expected).line inLine
                (env.child k arguments (cstr inLine)) []
                { st with testLine := (getline st.testLine expected).line }
              split
              · rename_i st1 evs heq
                rw [heq] at hw
                simp only [Flow.trace, Flow.state] at hw
                simp only [Result.after]
                rw [tallies_append, tallies_append]
                exact Walk.append hw (ih (getline st.testLine expected).stream (k + 1) st1)
              · rename_i o st1 evs heq
                rw [heq] at hw
                simp only [Flow.trace, Flow.state] at hw
                rw [tallies_append]
                exact hw
    · simp only [finish, tallies]
      exact Walk.refl _

theorem resolve_trace (path : List Char) (arguments : Option Argv) (evs : List Event)
    (h : resolve path = .run arguments evs) : tallies evs = [] ∧ execs evs = [] := by
  unfold resolve at h
  split at h
  · simp only [Resolution.run.injEq] at h
    obtain ⟨_, h2⟩ := h
    subst h2
    exact ⟨rfl, rfl⟩
  · split at h
    · split at h
      · simp at h
      · split at h
        · simp at h
        · simp only [Resolution.run.injEq] at h
          obtain ⟨_, h2⟩ := h
          subst h2
          exact ⟨rfl, rfl⟩
    · split at h
      · simp only [Resolution.run.injEq] at h
        obtain ⟨_, h2⟩ := h
        subst h2
        exact ⟨rfl, rfl⟩
      · simp at h

theorem runCorpus_walk (env : Env) (arguments : Option Argv) (a2 a3 : List Char) :
    Walk (0, 0) (tallies (runCorpus env arguments a2 a3).trace)
      ((runCorpus env arguments a2 a3).passed, (runCorpus env arguments a2 a3).total) := by
  unfold runCorpus
  split
  · rename_i input expected _ _
    simp only [Result.after]
    rw [tallies_append]
    exact whileLoop_walk env arguments (lines input) (lines expected) 0 (initialState env)
  · exact Walk.refl _

theorem lsh_run_walk (env : Env) (args : Argv) :
    Walk (0, 0) (tallies (lsh_run env args).trace)
      ((lsh_run env args).passed, (lsh_run env args).total) := by
  unfold lsh_run
  split
  · exact Walk.refl _
  · split
    · exact Walk.refl _
    · exact Walk.refl _
    · rename_i arguments evs hres
      obtain ⟨ht, _⟩ := resolve_trace _ _ _ hres
      split
      · simp only [Result.after]
        rw [tallies_append, ht, List.nil_append]
        exact runCorpus_walk env arguments _ _
      · simp only [ht]
        exact Walk.refl _

theorem chain_bounds (l : List (Int × Int)) :
    ∀ a : Int × Int, List.Chain CountStep a l → 0 ≤ a.1 ∧ a.1 ≤ a.2 →
      ∀ s ∈ l, 0 ≤ s.1 ∧ s.1 ≤ s.2 := by
  induction l with
  | nil => intro a _ _ s hs; simp at hs
  | cons x xs ih =>
    intro a hc ha s hs
    rw [List.chain_cons] at hc
    obtain ⟨⟨h1, h2⟩, hrest⟩ := hc
    have hx : 0 ≤ x.1 ∧ x.1 ≤ x.2 := by
      rcases h2 with h | h <;> omega
    rcases List.mem_cons.mp hs with rfl | hmem
    · exact hx
    · exact ih x hrest hx s hmem

/-- C6. Along every run of `lsh_run` the counter states, starting from (0, 0) and
taken after each compare-and-count step, form a chain in which total grows by
one and passed by nought or one; in every one of them 0 ≤ passed ≤ total, neither
counter ever decreases, the last state is the result of the run, and `test`
returns only 0 or 1. -/
theorem counters_stay_ordered (env : Env) (args : Argv) :
    List.Chain CountStep ((0, 0) : Int × Int) (tallies (lsh_run env args).trace) ∧
    (∀ s ∈ ((0, 0) : Int × Int) :: tallies (lsh_run env args).trace, 0 ≤ s.1 ∧ s.1 ≤ s.2) ∧
    List.Chain (fun a b : Int × Int => a.1 ≤ b.1 ∧ a.2 ≤ b.2) (0, 0)
      (tallies (lsh_run env args).trace) ∧
    (tallies (lsh_run env args).trace).getLastD (0, 0) =
      ((lsh_run env args).passed, (lsh_run env args).total) ∧
    (∀ buffer testLine input r ev, test buffer testLine input = some (r, ev) →
      r = 0 ∨ r = 1) := by
  obtain ⟨hc, hl⟩ := lsh_run_walk env args
  refine ⟨hc, ?_, ?_, hl, ?_⟩
  · intro s hs
    rcases List.mem_cons.mp hs with rfl | hmem
    · simp
    · exact chain_bounds _ _ hc (by simp) s hmem
  · refine List.Chain.imp ?_ hc
    intro a b hab
    obtain ⟨h1, h2⟩ := hab
    rcases h2 with h | h <;> omega
  · intro buffer testLine input r ev h
    exact (test_result buffer testLine input r ev h).1

/-- C6 at an echo run over a corpus of two lines. -/
theorem counters_stay_ordered_witness :
    List.Chain CountStep ((0, 0) : Int × Int)
      (tallies (lsh_run (envOf (corpus "ab\ncd\n".toList "ab\nxy\n".toList) echo)
        (runArgs "t.py".toList)).trace) ∧
    tallies (lsh_run (envOf (corpus "ab\ncd\n".toList "ab\nxy\n".toList) echo)
      (runArgs "t.py".toList)).trace = [(1, 1), (1, 2)] :=
  ⟨(counters_stay_ordered (envOf (corpus "ab\ncd\n".toList "ab\nxy\n".toList) echo)
    (runArgs "t.py".toList)).1, by decide⟩

theorem doWhile_halt (testLine : Option (List Char)) (inLine : List Char) :
    ∀ (reports : List (WaitStatus × List Char)) (inPipe : List Char) (st st1 : State)
      (o : Outcome) (evs : List Event),
      doWhile testLine inLine reports inPipe st = .halt o st1 evs →
      o = .blocked ∨ o = .undefined := by
  intro reports
  induction reports with
  | nil =>
    intro inPipe st st1 o evs h
    simp only [doWhile, Flow.halt.injEq] at h
    exact Or.inl h.1.symm
  | cons rep reports ih =>
    intro inPipe st st1 o evs h
    obtain ⟨status, written⟩ := rep
    rw [doWhile] at h
    simp only [] at h
    split at h
    · simp only [Flow.halt.injEq] at h
      exact Or.inr h.1.symm
    · split at h
      · rename_i r ev _ _
        cases hd : doWhile testLine inLine reports (List.drop BUFFER_SIZE (inPipe ++ written))
            ⟨st.testLine, List.replicate BUFFER_SIZE NUL, st.passed + r, st.total + 1⟩ with
        | next s2 tr => rw [hd] at h; simp [Flow.after] at h
        | halt o2 s2 tr =>
          rw [hd] at h
          simp only [Flow.after, Flow.halt.injEq] at h
          obtain ⟨h1, _, _⟩ := h
          subst h1
          exact ih _ _ _ _ _ hd
      · simp at h

/-- A run of the case loop that returns has printed the tally line last. -/
theorem whileLoop_returned (env : Env) (arguments : Option Argv) :
    ∀ (input expected : List (List Char)) (k : Nat) (st : State) (s : Int),
      (whileLoop env arguments k input expected st).outcome = .returned s →
      s = 1 ∧ (whileLoop env arguments k input expected st).trace.getLast? =
        some (Event.tally (whileLoop env arguments k input expected st).passed
          (whileLoop env arguments k input expected st).total) := by
  intro input
  induction input with
  | nil =>
    intro expected k st s h
    simp only [whileLoop, finish, Outcome.returned.injEq] at h ⊢
    exact ⟨h.symm, rfl⟩
  | cons inLine input ih =>
    intro expected k st s
    rw [whileLoop]
    simp only []
    split
    · split
      · intro h; simp at h
      · split
        · intro h; simp at h
        · split
          · intro h; simp at h
          · split
            · intro h
              simp only [Result.after] at h ⊢
              obtain ⟨h1, h2⟩ := ih (getline st.testLine expected).stream (k + 1)
                ⟨(getline st.testLine expected).line, st.buffer, st.passed, st.total⟩ s h
              refine ⟨h1, ?_⟩
              rw [List.getLast?_append, h2]
              rfl
            · split
              · rename_i st1 evs heq
                intro h
                simp only [Result.after] at h ⊢
                obtain ⟨h1, h2⟩ := ih (getline st.testLine expected).stream (k + 1) st1 s h
                refine ⟨h1, ?_⟩
                rw [List.getLast?_append, h2]
                rfl
              · rename_i o st1 evs heq
                intro h
                simp only [] at h
                rcases doWhile_halt _ _ _ _ _ _ _ _ heq with ho | ho <;>
                  rw [ho] at h <;> simp at h
    · intro h
      simp only [finish, Outcome.returned.injEq] at h ⊢
      exact ⟨h.symm, rfl⟩

/-- C9. In a case whose `fork` returns a negative value the loop body calls
`pipe`, `tmpfile`, `fputs`, `fork` and `perror` and nothing else (no `waitpid`,
no `read`, no `test`), and goes on to the next line with `passed` and `total`
unchanged; when the rest of the loop returns, the run returns 1 and its last
event is the tally line. -/
theorem fork_failure_skips_case (env : Env) (arguments : Option Argv) (k : Nat)
    (inLine : List Char) (input expected : List (List Char)) (st : State)
    (hloop : (getline st.testLine expected).ret ≠ 0)
    (hpipe : env.pipe k = true) (htmp : env.tmpfile k = true) (hfork : env.fork k < 0) :
    whileLoop env arguments k (inLine :: input) expected st =
      (whileLoop env arguments (k + 1) input (getline st.testLine expected).stream
        ⟨(getline st.testLine expected).line, st.buffer, st.passed, st.total⟩).after
        [Event.pipe true, Event.tmpfile true, Event.fputs (cstr inLine),
          Event.fork (env.fork k), Event.perror "Fork Error"] ∧
    (∀ s, (whileLoop env arguments (k + 1) input (getline st.testLine expected).stream
        ⟨(getline st.testLine expected).line, st.buffer, st.passed, st.total⟩).outcome =
          .returned s →
      (whileLoop env arguments k (inLine :: input) expected st).outcome = .returned 1 ∧
      (whileLoop env arguments k (inLine :: input) expected st).trace.getLast? =
        some (Event.tally
          (whileLoop env arguments (k + 1) input (getline st.testLine expected).stream
            ⟨(getline st.testLine expected).line, st.buffer, st.passed, st.total⟩).passed
          (whileLoop env arguments (k + 1) input (getline st.testLine expected).stream
            ⟨(getline st.testLine expected).line, st.buffer, st.passed, st.total⟩).total)) := by
  have h0 : ¬ env.fork k = 0 := by omega
  have heq : whileLoop env arguments k (inLine :: input) expected st =
      (whileLoop env arguments (k + 1) input (getline st.testLine expected).stream
        ⟨(getline st.testLine expected).line, st.buffer, st.passed, st.total⟩).after
        [Event.pipe true, Event.tmpfile true, Event.fputs (cstr inLine),
          Event.fork (env.fork k), Event.perror "Fork Error"] := by
    rw [whileLoop]
    simp only [hloop, ne_eq, not_false_eq_true, if_true, hpipe, htmp, h0, hfork, if_false]
    simp
  refine ⟨heq, ?_⟩
  intro s hs
  obtain ⟨h1, h2⟩ := whileLoop_returned env arguments _ _ _ _ s hs
  rw [heq]
  simp only [Result.after]
  refine ⟨by rw [hs, h1], ?_⟩
  rw [List.getLast?_append, h2]
  rfl

/-- C1, the code at the failing input: with an input corpus of five lines and an
expected corpus of three lines the case loop runs five cases and counts five,
not three, because the second `getline` is compared with 0 and not with -1. -/
theorem five_inputs_three_expected_run_five_cases :
    (lines "1\n2\n3\n4\n5\n".toList).length = 5 ∧
    (lines "1\n2\n3\n".toList).length = 3 ∧
    (lsh_run (envOf (corpus "1\n2\n3\n4\n5\n".toList "1\n2\n3\n".toList) echo)
      (runArgs "t.py".toList)).outcome = .returned 1 ∧
    (lsh_run (envOf (corpus "1\n2\n3\n4\n5\n".toList "1\n2\n3\n".toList) echo)
      (runArgs "t.py".toList)).total = 5 ∧
    (execs (lsh_run (envOf (corpus "1\n2\n3\n4\n5\n".toList "1\n2\n3\n".toList) echo)
      (runArgs "t.py".toList)).trace).length = 5 := by
  decide

/-- C5, the code at the failing input: one test case whose child is reported
stopped and then exited is compared and counted twice, so `total` is 2 after a
single case. -/
theorem stopped_child_is_counted_twice :
    (lines "1\n".toList).length = 1 ∧
    (execs (lsh_run (envOf (corpus "1\n".toList "1\n".toList) stopThenEcho)
      (runArgs "t.py".toList)).trace).length = 1 ∧
    (lsh_run (envOf (corpus "1\n".toList "1\n".toList) stopThenEcho)
      (runArgs "t.py".toList)).total = 2 ∧
    tallies (lsh_run (envOf (corpus "1\n".toList "1\n".toList) stopThenEcho)
      (runArgs "t.py".toList)).trace = [(1, 1), (1, 2)] := by
  decide

/-- C7, the code at the failing input: on an unsupported suffix `lsh_run` returns
0, and `lsh_loop` stops after it without executing the next command; a missing
corpus file also returns 0, and a failed `pipe` ends in `exit(1)`.  The sibling
builtin `lsh_show` returns 1 on its error path. -/
theorem abort_ends_the_shell :
    lsh_run (envOf [] echo) (runArgs "notes.txt".toList) = unsupportedResult ∧
    unsupportedResult.outcome = .returned 0 ∧
    lsh_loop (envOf [] echo) [runArgs "notes.txt".toList, ["help".toList]] =
      [unsupportedResult] ∧
    lsh_execute (envOf [] echo) ["show".toList, "missing".toList] = returns 1 ∧
    (lsh_run (envOf [] echo) (runArgs "t.py".toList)).outcome = .returned 0 ∧
    (lsh_run (pipeFailing (corpus "1\n".toList "1\n".toList) echo)
      (runArgs "t.py".toList)).outcome = .exited 1 := by
  decide

/-- C2, the code at the failing input: against the echo target, with a corpus of
two lines whose expected lines equal the input lines, the first comparison fails
when the uninitialised capture buffer holds stale bytes behind the three bytes
that were read, because the buffer is cleared only after each comparison; the
second case passes, so the run ends with 1 passed of 2.  The same run with the
buffer zeroed at the start passes 2 of 2. -/
theorem stale_buffer_fails_first_echo_case :
    lines "ab\ncd\n".toList = ["ab\n".toList, "cd\n".toList] ∧
    (lsh_run (staleBuffer (corpus "ab\ncd\n".toList "ab\ncd\n".toList) echo)
      (runArgs "t.py".toList)).outcome = .returned 1 ∧
    (lsh_run (staleBuffer (corpus "ab\ncd\n".toList "ab\ncd\n".toList) echo)
      (runArgs "t.py".toList)).passed = 1 ∧
    (lsh_run (staleBuffer (corpus "ab\ncd\n".toList "ab\ncd\n".toList) echo)
      (runArgs "t.py".toList)).total = 2 ∧
    tallies (lsh_run (staleBuffer (corpus "ab\ncd\n".toList "ab\ncd\n".toList) echo)
      (runArgs "t.py".toList)).trace = [(0, 1), (1, 2)] ∧
    (test (readInto "ab\n".toList
        (initialState (staleBuffer (corpus "ab\ncd\n".toList "ab\ncd\n".toList) echo)).buffer)
      (some "ab\n".toList) "ab\n".toList).map Prod.fst = some 0 ∧
    (lsh_run (envOf (corpus "ab\ncd\n".toList "ab\ncd\n".toList) echo)
      (runArgs "t.py".toList)).passed = 2 := by
  decide

/-- C8 at the path `main.test.c`. -/
theorem resolver_base_is_strtok_token_witness :
    ∃ base, strtok "main.test.c".toList ['.'] = some base ∧
      base = beforeFirstDot ("main.test.c".toList.dropWhile (fun c => c == '.')) ∧
      ("main.test.c".toList.head? ≠ some '.' → base = beforeFirstDot "main.test.c".toList) ∧
      (".c".toList = ".c".toList → base.length + 3 ≤ STRING_SIZE →
        resolve "main.test.c".toList = .run (some ["./".toList ++ base])
          [Event.launch ["gcc".toList, "-o".toList, base, "main.test.c".toList]]) ∧
      (".c".toList = ".py".toList →
        resolve "main.test.c".toList = .run (some ["python3".toList, base]) []) :=
  resolver_base_is_strtok_token "main.test.c".toList ".c".toList (by decide)
    (Or.inl rfl)

/-- C8 fails as stated: for `./prog.c` the portion before the first dot is empty,
while the code derives the base `/prog`, compiles with `gcc -o /prog ./prog.c`
and invokes `.//prog`; and a base of 48 bytes overruns `progRun`. -/
theorem dot_slash_base_is_not_before_first_dot :
    strrchr "./prog.c".toList '.' = some ".c".toList ∧
    beforeFirstDot "./prog.c".toList = [] ∧
    strtok "./prog.c".toList ['.'] = some "/prog".toList ∧
    resolve "./prog.c".toList = .run (some [".//prog".toList])
      [Event.launch ["gcc".toList, "-o".toList, "/prog".toList, "./prog.c".toList]] ∧
    (List.replicate 48 'a').length + 3 > STRING_SIZE ∧
    resolve (List.replicate 48 'a' ++ ".c".toList) = .undefined := by
  decide

/-- C9 at a one-line corpus whose only `fork` fails. -/
theorem fork_failure_skips_case_witness :
    whileLoop (forkFailing [] echo) none 0 ["1\n".toList] ["1\n".toList] clearState =
      ⟨.returned 1, 0, 0,
        [Event.pipe true, Event.tmpfile true, Event.fputs "1\n".toList, Event.fork (-1),
          Event.perror "Fork Error", Event.tally 0 0]⟩ := by
  rw [(fork_failure_skips_case (forkFailing [] echo) none 0 "1\n".toList []
    ["1\n".toList] clearState (by decide) rfl rfl (by decide)).1]
  decide

end MyShell
